import Mathlib

/-!
# sql-migrate `status` command: reconciliation and presentation

A shallow embedding of `sql-migrate/command_status.go`:

* `buildStatusRows` merges the ordered list of migrations found on disk with
  the migration records read from the database;
* `printStatusJSON` and `printStatusTable` turn the merged rows into the
  values handed to the JSON encoder and to the table writer.

Go pointers are modelled explicitly.  A slice `[]*T` is a list of
`Option`, `none` being the nil pointer; dereferencing nil panics, and a panic
is the result `none` of the embedded function.  The `statusRow` values that
`buildStatusRows` allocates live in a heap (a list, the address of a row being
its index), the Go map `map[string]*statusRow` is a finite function from keys
to addresses, and the returned slice is a list of addresses, so that aliasing
between slots of the result is visible.
-/

namespace SqlMigrate

/-! ## Data model -/

/-- One entry of the zone table of a `time.Location` (Go's `time.zone`): the
abbreviation, the offset east of UTC in seconds and the daylight-saving flag. -/
structure zone where
  name : String
  offset : Int
  isDST : Bool
deriving DecidableEq, Repr

/-- One zone transition of a `time.Location` (Go's `time.zoneTrans`). -/
structure zoneTrans where
  when : Int
  index : Nat
  isstd : Bool
  isutc : Bool
deriving DecidableEq, Repr

/-- Go's `time.Location` (standard library), by content: its name, zone table,
transitions and extension rule.  The three cache fields of the Go struct only
memoise a lookup in `zones` and `tx` and are left out. -/
structure Location where
  name : String
  zones : List zone
  tx : List zoneTrans
  extend : String
deriving DecidableEq, Repr

/-- Go's `time.Time` (standard library): the wall and monotonic readings and
the location pointer `loc`, `none` being the nil pointer (UTC).  The program
stores and copies such values whole and hands them to `Format`, which reads all
three fields. -/
structure Time where
  wall : Nat
  ext : Int
  loc : Option Location
deriving DecidableEq, Repr

/-- The zero value of `time.Time`, which a `statusRow` literal without an
`AppliedAt` field receives: every field zero, `loc` nil. -/
def Time.zero : Time := ⟨0, 0, none⟩

/-- The part of `migrate.Migration` the status command reads: its `Id`. -/
structure Migration where
  Id : String
deriving DecidableEq, Repr

/-- The part of `migrate.MigrationRecord` the status command reads. -/
structure MigrationRecord where
  Id : String
  AppliedAt : Time
deriving DecidableEq, Repr

/-- Mirror of `type statusRow struct`. -/
structure statusRow where
  Id : String
  Migrated : Bool
  AppliedAt : Time
deriving DecidableEq, Repr

/-- A non-nil `*statusRow`: the index of the row in the heap. -/
abbrev Ptr := Nat

/-- The local state of one call of `buildStatusRows`.

* `heap`: the `statusRow` values allocated so far, by address;
* `rows`: the map `rows`, `none` meaning that the key is absent;
* `warned`: the messages passed to `ui.Warn`, oldest first;
* `result`: the slice `result`, `none` being a nil element. -/
structure Env where
  heap : List statusRow
  rows : String → Option Ptr
  warned : List String
  result : List (Option Ptr)

/-- State on entry: `rows := make(map[string]*statusRow)`, nothing allocated,
nothing warned, `var result []*statusRow`. -/
def Env.init : Env := ⟨[], fun _ => none, [], []⟩

/-! ## `buildStatusRows` -/

/-- Body of the first loop: `rows[m.Id] = &statusRow{Id: m.Id, Migrated: false}`.
A fresh row is allocated at the end of the heap and the map slot for `m.Id` is
(over)written with its address.  A nil `m` panics. -/
def seedRow (st : Env) : Option Migration → Option Env
  | none => none
  | some m =>
    some { st with
      heap := st.heap ++ [{ Id := m.Id, Migrated := false, AppliedAt := Time.zero }]
      rows := fun k => if k = m.Id then some st.heap.length else st.rows k }

/-- Body of the second loop.  When the map has the record's identifier the two
fields of the row it points to are assigned in turn, otherwise `ui.Warn` is
called with `fmt.Sprintf("Could not find migration file: %v", r.Id)`, which for
a string is the fixed text followed by the identifier.  A nil `r` panics. -/
def markRecord (st : Env) : Option MigrationRecord → Option Env
  | none => none
  | some r =>
    match st.rows r.Id with
    | some row =>
      some { st with
        heap := (st.heap.modify (fun x => { x with Migrated := true }) row).modify
          (fun x => { x with AppliedAt := r.AppliedAt }) row }
    | none =>
      some { st with warned := st.warned ++ ["Could not find migration file: " ++ r.Id] }

/-- Body of the third loop: `result = append(result, rows[m.Id])`.  The
one-value map read yields nil (`none`) for an absent key. -/
def collectRow (st : Env) : Option Migration → Option Env
  | none => none
  | some m => some { st with result := st.result ++ [st.rows m.Id] }

/-- Embedding of `buildStatusRows`: the three loops in sequence.  The value is
`none` when the call panics and otherwise the final state, whose `result` is
the returned slice, `heap` the memory it points into and `warned` the warnings
emitted. -/
def buildStatusRows (migrations : List (Option Migration))
    (records : List (Option MigrationRecord)) : Option Env := do
  let st ← migrations.foldlM seedRow Env.init
  let st ← records.foldlM markRecord st
  migrations.foldlM collectRow st

/-- What a caller reads through the returned slice: for each element the row it
points to, `none` for a nil (or dangling) element. -/
def Env.deref (st : Env) : List (Option statusRow) :=
  st.result.map (fun p => p.bind (fun a => st.heap[a]?))

/-! ## Presenters -/

/-- Mirror of the local `type jsonRow struct` of `printStatusJSON`. -/
structure jsonRow where
  Migration : String
  Applied : String
deriving DecidableEq, Repr

/-- The layout constant `time.RFC3339`. -/
def RFC3339 : String := "2006-01-02T15:04:05Z07:00"

/-- The layout literal used by `printStatusTable`. -/
def tableLayout : String := "2006-01-02 15:04:05"

/-- Body of the loop of `printStatusJSON`; `format layout t` stands for
`t.Format(layout)`.  A nil row panics. -/
def jsonStep (format : String → Time → String) (output : List jsonRow) :
    Option statusRow → Option (List jsonRow)
  | none => none
  | some r =>
    let applied := if r.Migrated then format RFC3339 r.AppliedAt else "no"
    some (output ++ [{ Migration := r.Id, Applied := applied }])

/-- What one call of `printStatusJSON` does: the slice `output` it built, the
lines written to standard output and the error it returned. -/
structure JSONRun where
  output : List jsonRow
  stdout : List String
  err : Option String
deriving DecidableEq, Repr

/-- Embedding of `printStatusJSON`.  `format` is `time.Time.Format` and
`marshalIndent output` is `json.MarshalIndent(output, "", "  ")`, both library
functions.  The rows are given as the caller sees them through the slice. -/
def printStatusJSON (format : String → Time → String)
    (marshalIndent : List jsonRow → Except String String)
    (rows : List (Option statusRow)) : Option JSONRun := do
  let output ← rows.foldlM (jsonStep format) []
  match marshalIndent output with
  | .error e => pure { output := output, stdout := [], err := some e }
  | .ok data => pure { output := output, stdout := [data], err := none }

/-- The state of the `tablewriter` table that `printStatusTable` builds. -/
structure Table where
  header : List String
  colWidth : Nat
  lines : List (List String)
deriving DecidableEq, Repr

/-- Body of the loop of `printStatusTable`: `table.Append([]string{r.Id, applied})`.
A nil row panics. -/
def tableStep (format : String → Time → String) (table : Table) :
    Option statusRow → Option Table
  | none => none
  | some r =>
    let applied := if r.Migrated then format tableLayout r.AppliedAt else "no"
    some { table with lines := table.lines ++ [[r.Id, applied]] }

/-- Embedding of `printStatusTable`: the table on which `Render` is called. -/
def printStatusTable (format : String → Time → String)
    (rows : List (Option statusRow)) : Option Table :=
  rows.foldlM (tableStep format)
    { header := ["Migration", "Applied"], colWidth := 60, lines := [] }

/-! ## Auxiliary functions used in the proofs -/

/-- Effect of `seedRow` on a non-nil migration. -/
def seedStep (st : Env) (m : Migration) : Env :=
  { st with
    heap := st.heap ++ [{ Id := m.Id, Migrated := false, AppliedAt := Time.zero }]
    rows := fun k => if k = m.Id then some st.heap.length else st.rows k }

/-- Effect of `markRecord` on a non-nil record. -/
def markStep (st : Env) (r : MigrationRecord) : Env :=
  match st.rows r.Id with
  | some row =>
    { st with
      heap := (st.heap.modify (fun x => { x with Migrated := true }) row).modify
        (fun x => { x with AppliedAt := r.AppliedAt }) row }
  | none => { st with warned := st.warned ++ ["Could not find migration file: " ++ r.Id] }

/-- Effect of `collectRow` on a non-nil migration. -/
def collectStep (st : Env) (m : Migration) : Env :=
  { st with result := st.result ++ [st.rows m.Id] }

/-- Final state of `buildStatusRows` on inputs without nil elements. -/
def buildPure (ms : List Migration) (rs : List MigrationRecord) : Env :=
  ms.foldl collectStep (rs.foldl markStep (ms.foldl seedStep Env.init))

/-- Position of the last migration of `ms` whose identifier is `k`. -/
def lastIdx : List Migration → String → Option Nat
  | [], _ => none
  | m :: ms, k =>
    match lastIdx ms k with
    | some j => some (j + 1)
    | none => if k = m.Id then some 0 else none

/-- The row a migration is seeded with. -/
def seedOf (m : Migration) : statusRow :=
  { Id := m.Id, Migrated := false, AppliedAt := Time.zero }

/-- The two assignments made for a record, as one update of the row. -/
def stamp (row : statusRow) (r : MigrationRecord) : statusRow :=
  { Id := row.Id, Migrated := true, AppliedAt := r.AppliedAt }

/-- The row for identifier `k` once the records have been applied in order:
every record carrying `k` stamps it. -/
def finalRow (rs : List MigrationRecord) (k : String) : statusRow :=
  rs.foldl (fun row r => if r.Id = k then stamp row r else row)
    { Id := k, Migrated := false, AppliedAt := Time.zero }

/-! ## Lemmas on the three loops -/

theorem foldlM_present {σ α : Type} (f : σ → Option α → Option σ) (g : σ → α → σ)
    (h : ∀ s a, f s (some a) = some (g s a)) (l : List α) (s : σ) :
    (l.map some).foldlM f s = some (l.foldl g s) := by
  induction l generalizing s with
  | nil => rfl
  | cons a l ih => simp [List.foldlM_cons, h, ih]

theorem markRecord_present (s : Env) (r : MigrationRecord) :
    markRecord s (some r) = some (markStep s r) := by
  simp only [markRecord, markStep]
  cases s.rows r.Id <;> rfl

theorem buildStatusRows_present (ms : List Migration) (rs : List MigrationRecord) :
    buildStatusRows (ms.map some) (rs.map some) = some (buildPure ms rs) := by
  unfold buildStatusRows buildPure
  rw [foldlM_present seedRow seedStep (fun _ _ => rfl)]
  simp only [Option.some_bind, Option.bind_eq_bind]
  rw [foldlM_present markRecord markStep markRecord_present]
  simp only [Option.some_bind]
  rw [foldlM_present collectRow collectStep (fun _ _ => rfl)]

theorem seed_heap (ms : List Migration) (st : Env) :
    (ms.foldl seedStep st).heap = st.heap ++ ms.map seedOf := by
  induction ms generalizing st with
  | nil => simp
  | cons m ms ih => simp [ih, seedStep, seedOf]

theorem seed_rows (ms : List Migration) (st : Env) (k : String) :
    (ms.foldl seedStep st).rows k =
      match lastIdx ms k with
      | some j => some (st.heap.length + j)
      | none => st.rows k := by
  induction ms generalizing st with
  | nil => simp [lastIdx]
  | cons m ms ih =>
    simp only [List.foldl_cons, ih, lastIdx]
    cases h : lastIdx ms k with
    | some j => simp [seedStep, Nat.add_assoc, Nat.add_comm 1 j]
    | none =>
      by_cases hk : k = m.Id <;> simp [seedStep, hk]

theorem seed_warned (ms : List Migration) (st : Env) :
    (ms.foldl seedStep st).warned = st.warned := by
  induction ms generalizing st with
  | nil => rfl
  | cons m ms ih => simp [ih, seedStep]

theorem seed_result (ms : List Migration) (st : Env) :
    (ms.foldl seedStep st).result = st.result := by
  induction ms generalizing st with
  | nil => rfl
  | cons m ms ih => simp [ih, seedStep]

theorem markStep_rows (st : Env) (r : MigrationRecord) : (markStep st r).rows = st.rows := by
  unfold markStep; cases st.rows r.Id <;> rfl

theorem markStep_result (st : Env) (r : MigrationRecord) :
    (markStep st r).result = st.result := by
  unfold markStep; cases st.rows r.Id <;> rfl

theorem mark_rows (rs : List MigrationRecord) (st : Env) :
    (rs.foldl markStep st).rows = st.rows := by
  induction rs generalizing st with
  | nil => rfl
  | cons r rs ih => simp [ih, markStep_rows]

theorem mark_result (rs : List MigrationRecord) (st : Env) :
    (rs.foldl markStep st).result = st.result := by
  induction rs generalizing st with
  | nil => rfl
  | cons r rs ih => simp [ih, markStep_result]

theorem mark_warned (rs : List MigrationRecord) (st : Env) :
    (rs.foldl markStep st).warned =
      st.warned ++ (rs.filter (fun r => (st.rows r.Id).isNone)).map
        (fun r => "Could not find migration file: " ++ r.Id) := by
  induction rs generalizing st with
  | nil => simp
  | cons r rs ih =>
    simp only [List.foldl_cons, ih, markStep_rows]
    cases h : st.rows r.Id with
    | some p => simp [markStep, h, List.filter_cons]
    | none => simp [markStep, h, List.filter_cons]

theorem mark_heap (rs : List MigrationRecord) (st : Env) (a : Nat) :
    (rs.foldl markStep st).heap[a]? =
      (st.heap[a]?).map (fun row =>
        rs.foldl (fun row r => if st.rows r.Id = some a then stamp row r else row) row) := by
  induction rs generalizing st with
  | nil => simp
  | cons r rs ih =>
    simp only [List.foldl_cons, ih, markStep_rows]
    cases h : st.rows r.Id with
    | some p =>
      simp only [markStep, h, List.getElem?_modify, Option.map_eq_map, Option.map_map]
      by_cases hp : p = a
      · subst hp
        cases st.heap[p]? <;> simp [stamp]
      · have hp2 : ¬ (some p = some a) := by simpa using hp
        cases st.heap[a]? <;> simp [hp, hp2]
    | none => simp [markStep, h]

theorem collect_result (ms : List Migration) (st : Env) :
    (ms.foldl collectStep st).result = st.result ++ ms.map (fun m => st.rows m.Id) := by
  induction ms generalizing st with
  | nil => simp
  | cons m ms ih => simp [ih, collectStep]

theorem collect_heap (ms : List Migration) (st : Env) :
    (ms.foldl collectStep st).heap = st.heap := by
  induction ms generalizing st with
  | nil => rfl
  | cons m ms ih => simp [ih, collectStep]

theorem collect_warned (ms : List Migration) (st : Env) :
    (ms.foldl collectStep st).warned = st.warned := by
  induction ms generalizing st with
  | nil => rfl
  | cons m ms ih => simp [ih, collectStep]

/-! ## The last occurrence of an identifier in the catalog -/

theorem lastIdx_get (ms : List Migration) (k : String) (j : Nat) (h : lastIdx ms k = some j) :
    ∃ m, ms[j]? = some m ∧ m.Id = k := by
  induction ms generalizing j with
  | nil => simp [lastIdx] at h
  | cons m ms ih =>
    simp only [lastIdx] at h
    cases h2 : lastIdx ms k with
    | some j2 =>
      rw [h2] at h
      simp only [Option.some.injEq] at h
      subst h
      simpa using ih j2 h2
    | none =>
      rw [h2] at h
      by_cases hk : k = m.Id
      · simp only [hk, if_true, Option.some.injEq] at h
        subst h
        exact ⟨m, by simp, hk.symm⟩
      · simp [hk] at h

theorem lastIdx_eq_none (ms : List Migration) (k : String) :
    lastIdx ms k = none ↔ ∀ m ∈ ms, m.Id ≠ k := by
  induction ms with
  | nil => simp [lastIdx]
  | cons m ms ih =>
    simp only [lastIdx, List.mem_cons, forall_eq_or_imp]
    cases h2 : lastIdx ms k with
    | some j2 =>
      rw [h2] at ih
      simp only [false_iff, reduceCtorEq] at ih ⊢
      tauto
    | none =>
      rw [h2] at ih
      have ih2 := ih.mp rfl
      by_cases hk : k = m.Id
      · simp [hk]
      · simp only [hk, if_false, true_iff]
        exact ⟨fun h => hk h.symm, ih2⟩

theorem lastIdx_last (ms : List Migration) (k : String) (j : Nat) (h : lastIdx ms k = some j)
    (j2 : Nat) (m : Migration) (hlt : j < j2) (hm : ms[j2]? = some m) : m.Id ≠ k := by
  induction ms generalizing j j2 with
  | nil => simp [lastIdx] at h
  | cons m0 ms ih =>
    simp only [lastIdx] at h
    cases j2 with
    | zero => omega
    | succ j3 =>
      simp only [List.getElem?_cons_succ] at hm
      cases h2 : lastIdx ms k with
      | some j4 =>
        rw [h2] at h
        simp only [Option.some.injEq] at h
        exact ih j4 h2 j3 (by omega) hm
      | none =>
        exact (lastIdx_eq_none ms k).mp h2 m (List.getElem?_mem hm)

theorem lastIdx_mem (ms : List Migration) (m : Migration) (h : m ∈ ms) :
    ∃ j, lastIdx ms m.Id = some j := by
  cases h2 : lastIdx ms m.Id with
  | some j => exact ⟨j, rfl⟩
  | none => exact absurd rfl ((lastIdx_eq_none ms m.Id).mp h2 m h)

/-! ## The row of an identifier after the records -/

theorem stampAll_Id (k : String) (rs : List MigrationRecord) (row : statusRow) :
    (rs.foldl (fun row r => if r.Id = k then stamp row r else row) row).Id = row.Id := by
  induction rs generalizing row with
  | nil => rfl
  | cons r rs ih =>
    simp only [List.foldl_cons, ih]
    by_cases h : r.Id = k <;> simp [h, stamp]

theorem stampAll_skip (k : String) (rs : List MigrationRecord) (row : statusRow)
    (h : ∀ r ∈ rs, r.Id ≠ k) :
    rs.foldl (fun row r => if r.Id = k then stamp row r else row) row = row := by
  induction rs generalizing row with
  | nil => rfl
  | cons r rs ih =>
    simp only [List.mem_cons, forall_eq_or_imp] at h
    simp only [List.foldl_cons, h.1, if_false]
    exact ih row h.2

theorem finalRow_Id (rs : List MigrationRecord) (k : String) : (finalRow rs k).Id = k := by
  unfold finalRow
  rw [stampAll_Id]

theorem finalRow_absent (rs : List MigrationRecord) (k : String) (h : ∀ r ∈ rs, r.Id ≠ k) :
    finalRow rs k = { Id := k, Migrated := false, AppliedAt := Time.zero } := by
  unfold finalRow
  exact stampAll_skip k rs _ h

theorem finalRow_last (pre post : List MigrationRecord) (r : MigrationRecord)
    (h : ∀ x ∈ post, x.Id ≠ r.Id) :
    finalRow (pre ++ r :: post) r.Id = { Id := r.Id, Migrated := true, AppliedAt := r.AppliedAt } := by
  unfold finalRow
  have hid := stampAll_Id r.Id pre { Id := r.Id, Migrated := false, AppliedAt := Time.zero }
  rw [List.foldl_append, List.foldl_cons, stampAll_skip r.Id post _ h]
  simp only [if_true]
  rw [stamp, hid]

theorem finalRow_filter (p : MigrationRecord → Bool) (rs : List MigrationRecord) (k : String)
    (h : ∀ r ∈ rs, r.Id = k → p r = true) : finalRow (rs.filter p) k = finalRow rs k := by
  unfold finalRow
  generalize ({ Id := k, Migrated := false, AppliedAt := Time.zero } : statusRow) = row
  induction rs generalizing row with
  | nil => rfl
  | cons r rs ih =>
    simp only [List.mem_cons, forall_eq_or_imp] at h
    by_cases hk : r.Id = k
    · simp only [List.filter_cons, h.1 hk, if_true, List.foldl_cons]
      exact ih h.2 _
    · cases hp : p r
      · simp only [List.filter_cons, hp, List.foldl_cons, hk, if_false]
        simpa using ih h.2 row
      · simp only [List.filter_cons, hp, if_true, List.foldl_cons, hk, if_false]
        exact ih h.2 row

theorem finalRow_unique (rs : List MigrationRecord) (r : MigrationRecord) (hr : r ∈ rs)
    (hnd : (rs.map (fun x => x.Id)).Nodup) :
    finalRow rs r.Id = { Id := r.Id, Migrated := true, AppliedAt := r.AppliedAt } := by
  obtain ⟨pre, post, rfl⟩ := List.append_of_mem hr
  apply finalRow_last
  intro x hx
  simp only [List.map_append, List.map_cons] at hnd
  have h2 := (List.nodup_append.mp hnd).2.1
  simp only [List.nodup_cons, List.mem_map, not_exists, not_and] at h2
  exact h2.1 x hx

theorem finalRow_perm (rs1 rs2 : List MigrationRecord) (k : String) (hp : rs1.Perm rs2)
    (hnd : (rs1.map (fun x => x.Id)).Nodup) : finalRow rs1 k = finalRow rs2 k := by
  by_cases h : ∃ r ∈ rs1, r.Id = k
  · obtain ⟨r, hr, rfl⟩ := h
    rw [finalRow_unique rs1 r hr hnd,
      finalRow_unique rs2 r (hp.mem_iff.mp hr) ((hp.map _).nodup_iff.mp hnd)]
  · simp only [not_exists, not_and] at h
    rw [finalRow_absent rs1 k h, finalRow_absent rs2 k (fun r hr => h r (hp.mem_iff.mpr hr))]

/-! ## The final state of `buildStatusRows` -/

theorem build_result (ms : List Migration) (rs : List MigrationRecord) :
    (buildPure ms rs).result = ms.map (fun m => lastIdx ms m.Id) := by
  unfold buildPure
  rw [collect_result, mark_result, seed_result, mark_rows]
  simp only [Env.init, List.nil_append]
  apply List.map_congr_left
  intro m _
  rw [seed_rows]
  cases lastIdx ms m.Id <;> simp

theorem build_warned (ms : List Migration) (rs : List MigrationRecord) :
    (buildPure ms rs).warned =
      (rs.filter (fun r => (lastIdx ms r.Id).isNone)).map
        (fun r => "Could not find migration file: " ++ r.Id) := by
  unfold buildPure
  rw [collect_warned, mark_warned, seed_warned]
  simp only [Env.init, List.nil_append]
  congr 1
  apply List.filter_congr
  intro r _
  rw [seed_rows]
  cases lastIdx ms r.Id <;> simp

theorem build_heap (ms : List Migration) (rs : List MigrationRecord) (a : Nat) :
    (buildPure ms rs).heap[a]? =
      (ms[a]?).map (fun m =>
        rs.foldl (fun row r => if lastIdx ms r.Id = some a then stamp row r else row)
          (seedOf m)) := by
  unfold buildPure
  rw [collect_heap, mark_heap, seed_heap]
  simp only [Env.init, List.nil_append, List.getElem?_map, Option.map_map]
  congr 1
  funext m
  simp only [Function.comp]
  congr 1
  funext row r
  have e : (List.foldl seedStep ⟨[], fun _ => none, [], []⟩ ms).rows r.Id = lastIdx ms r.Id := by
    rw [seed_rows]
    cases lastIdx ms r.Id <;> simp
  simp only [e]

theorem build_heap_length (ms : List Migration) (rs : List MigrationRecord) :
    (buildPure ms rs).heap.length = ms.length := by
  have h : ∀ a : Nat, (buildPure ms rs).heap[a]? = none ↔ ms[a]? = none := by
    intro a
    rw [build_heap]
    simp
  simp only [List.getElem?_eq_none_iff] at h
  have h1 := (h ms.length).mpr (Nat.le_refl _)
  have h2 := (h (buildPure ms rs).heap.length).mp (Nat.le_refl _)
  omega

theorem build_heap_last (ms : List Migration) (rs : List MigrationRecord) (k : String) (j : Nat)
    (h : lastIdx ms k = some j) : (buildPure ms rs).heap[j]? = some (finalRow rs k) := by
  obtain ⟨m, hm, hk⟩ := lastIdx_get ms k j h
  rw [build_heap, hm]
  simp only [Option.map_some', Option.some.injEq, finalRow, seedOf, hk]
  congr 1
  funext row r
  by_cases hr : r.Id = k
  · simp [hr, h]
  · have : lastIdx ms r.Id ≠ some j := by
      intro h3
      obtain ⟨m2, hm2, hk2⟩ := lastIdx_get ms r.Id j h3
      rw [hm] at hm2
      simp only [Option.some.injEq] at hm2
      subst hm2
      exact hr (hk2.symm.trans hk)
    simp [hr, this]

theorem build_deref (ms : List Migration) (rs : List MigrationRecord) :
    (buildPure ms rs).deref = ms.map (fun m => some (finalRow rs m.Id)) := by
  unfold Env.deref
  rw [build_result, List.map_map]
  apply List.map_congr_left
  intro m hm
  obtain ⟨j, hj⟩ := lastIdx_mem ms m hm
  simp only [Function.comp, hj, Option.some_bind]
  exact build_heap_last ms rs m.Id j hj

theorem build_deref_get (ms : List Migration) (rs : List MigrationRecord) (i : Nat) :
    (buildPure ms rs).deref[i]? = (ms[i]?).map (fun m => some (finalRow rs m.Id)) := by
  rw [build_deref, List.getElem?_map]

theorem ids_get_inj (ms : List Migration) (hnd : (ms.map (fun m => m.Id)).Nodup)
    (i j : Nat) (m m2 : Migration) (hi : ms[i]? = some m) (hj : ms[j]? = some m2)
    (hid : m.Id = m2.Id) : i = j := by
  have hlen : i < (ms.map (fun m => m.Id)).length := by
    rw [List.length_map]
    exact (List.getElem?_eq_some.mp hi).1
  apply List.getElem?_inj hlen hnd
  rw [List.getElem?_map, List.getElem?_map, hi, hj]
  simp [hid]

theorem lastIdx_isNone (ms : List Migration) (k : String) :
    (lastIdx ms k).isNone = decide (k ∉ ms.map (fun m => m.Id)) := by
  cases h : lastIdx ms k with
  | none =>
    have h2 := (lastIdx_eq_none ms k).mp h
    have : k ∉ ms.map (fun m => m.Id) := by
      simp only [List.mem_map, not_exists, not_and]
      exact h2
    simp [this]
  | some j =>
    obtain ⟨m, hm, hk⟩ := lastIdx_get ms k j h
    have : k ∈ ms.map (fun m => m.Id) := List.mem_map.mpr ⟨m, List.getElem?_mem hm, hk⟩
    simp [this]

theorem stampAll_migrated (k : String) (rs : List MigrationRecord) (row : statusRow)
    (h : row.Migrated = true ∨ ∃ r ∈ rs, r.Id = k) :
    (rs.foldl (fun row r => if r.Id = k then stamp row r else row) row).Migrated = true := by
  induction rs generalizing row with
  | nil =>
    rcases h with h | ⟨r, hr, _⟩
    · exact h
    · simp at hr
  | cons r rs ih =>
    simp only [List.foldl_cons]
    apply ih
    by_cases hk : r.Id = k
    · left
      simp [hk, stamp]
    · rcases h with h | ⟨r2, hr2, hk2⟩
      · left
        simpa [hk] using h
      · right
        simp only [List.mem_cons] at hr2
        rcases hr2 with rfl | hr2
        · exact absurd hk2 hk
        · exact ⟨r2, hr2, hk2⟩

theorem finalRow_migrated (rs : List MigrationRecord) (r : MigrationRecord) (hr : r ∈ rs) :
    (finalRow rs r.Id).Migrated = true :=
  stampAll_migrated r.Id rs _ (Or.inr ⟨r, hr, rfl⟩)

theorem all_present {α : Type} (l : List (Option α)) (h : ∀ x ∈ l, x ≠ none) :
    ∃ l2 : List α, l = l2.map some := by
  induction l with
  | nil => exact ⟨[], rfl⟩
  | cons x l ih =>
    simp only [List.mem_cons, forall_eq_or_imp] at h
    obtain ⟨l2, hl2⟩ := ih h.2
    cases x with
    | none => exact absurd rfl h.1
    | some a => exact ⟨a :: l2, by simp [hl2]⟩

theorem lastIdx_of_last (ms : List Migration) (d : String) (j : Nat) (mj : Migration)
    (hj : ms[j]? = some mj) (hd : mj.Id = d)
    (hlast : ∀ (j2 : Nat) (m : Migration), j < j2 → ms[j2]? = some m → m.Id ≠ d) :
    lastIdx ms d = some j := by
  cases h : lastIdx ms d with
  | none => exact absurd hd ((lastIdx_eq_none ms d).mp h mj (List.getElem?_mem hj))
  | some j2 =>
    obtain ⟨m2, hm2, hd2⟩ := lastIdx_get ms d j2 h
    rcases Nat.lt_trichotomy j j2 with hlt | heq | hgt
    · exact absurd hd2 (hlast j2 m2 hlt hm2)
    · rw [heq]
    · exact absurd hd (lastIdx_last ms d j2 h j mj hgt hj)

theorem jsonStep_fold (format : String → Time → String) (rows : List statusRow)
    (acc : List jsonRow) :
    (rows.map some).foldlM (jsonStep format) acc =
      some (acc ++ rows.map (fun r =>
        { Migration := r.Id,
          Applied := if r.Migrated then format RFC3339 r.AppliedAt else "no" })) := by
  induction rows generalizing acc with
  | nil => simp
  | cons r rows ih => simp [List.foldlM_cons, jsonStep, ih]

theorem tableStep_fold (format : String → Time → String) (rows : List statusRow)
    (t : Table) :
    (rows.map some).foldlM (tableStep format) t =
      some { t with lines := t.lines ++ rows.map (fun r =>
        [r.Id, if r.Migrated then format tableLayout r.AppliedAt else "no"]) } := by
  induction rows generalizing t with
  | nil => simp
  | cons r rows ih => simp [List.foldlM_cons, tableStep, ih]

/-- A nil migration makes the call panic: the totality statement below needs its
hypotheses. -/
theorem buildStatusRows_nil_migration (rs : List (Option MigrationRecord)) :
    buildStatusRows [none] rs = none := rfl

/-- A nil record makes the call panic as well. -/
theorem buildStatusRows_nil_record (m : Migration) :
    buildStatusRows [some m] [none] = none := rfl

/-! ## Properties of the reconciliation and of the presenters -/

/-- C1 (order preservation).  On any catalog and any records the call returns,
and the identifiers read through the returned slice are the catalog's
identifiers, position by position. -/
theorem buildStatusRows_order (ms : List Migration) (rs : List MigrationRecord) :
    ∃ out, buildStatusRows (ms.map some) (rs.map some) = some out ∧
      out.deref.map (Option.map statusRow.Id) = ms.map (fun m => some m.Id) := by
  refine ⟨buildPure ms rs, buildStatusRows_present ms rs, ?_⟩
  rw [build_deref, List.map_map]
  apply List.map_congr_left
  intro m _
  simp [finalRow_Id]

/-- C2 (completeness).  The returned slice has the length of the catalog, and
when the catalog holds each identifier at most once every catalog identifier is
the `Id` of exactly one slot of the output. -/
theorem buildStatusRows_complete (ms : List Migration) (rs : List MigrationRecord) :
    ∃ out, buildStatusRows (ms.map some) (rs.map some) = some out ∧
      out.result.length = ms.length ∧ out.deref.length = ms.length ∧
      ((ms.map (fun m => m.Id)).Nodup → ∀ m ∈ ms,
        ∃! i : Nat, ∃ row : statusRow, out.deref[i]? = some (some row) ∧ row.Id = m.Id) := by
  refine ⟨buildPure ms rs, buildStatusRows_present ms rs, ?_, ?_, ?_⟩
  · rw [build_result, List.length_map]
  · rw [build_deref, List.length_map]
  · intro hnd m hm
    obtain ⟨i, hi⟩ := List.getElem?_of_mem hm
    refine ⟨i, ⟨finalRow rs m.Id, ?_, finalRow_Id rs m.Id⟩, ?_⟩
    · rw [build_deref_get, hi]
      rfl
    · rintro j ⟨row, hrow, hid⟩
      rw [build_deref_get] at hrow
      cases hj : ms[j]? with
      | none => rw [hj] at hrow; simp at hrow
      | some m2 =>
        rw [hj] at hrow
        simp only [Option.map_some', Option.some.injEq] at hrow
        subst hrow
        rw [finalRow_Id] at hid
        exact ids_get_inj ms hnd j i m2 m hj hi hid

/-- C3 (correctness of matching).  With unique catalog identifiers and at most
one record per identifier, the slot of a catalog identifier `b` holds
`(b, true, T)` when the records contain `(b, T)` and `(b, false, zero time)`
when no record carries `b`; with no records at all every slot is of the second
kind. -/
theorem buildStatusRows_matching (ms : List Migration) (rs : List MigrationRecord)
    (hms : (ms.map (fun m => m.Id)).Nodup) (hrs : (rs.map (fun r => r.Id)).Nodup) :
    ∃ out, buildStatusRows (ms.map some) (rs.map some) = some out ∧
      (∀ (i : Nat) (m : Migration), ms[i]? = some m →
        (∀ T, ({ Id := m.Id, AppliedAt := T } : MigrationRecord) ∈ rs →
          out.deref[i]? = some (some { Id := m.Id, Migrated := true, AppliedAt := T })) ∧
        ((∀ r ∈ rs, r.Id ≠ m.Id) →
          out.deref[i]? = some (some { Id := m.Id, Migrated := false, AppliedAt := Time.zero }))) ∧
      (rs = [] → out.deref =
        ms.map (fun m => some { Id := m.Id, Migrated := false, AppliedAt := Time.zero })) := by
  have _ := hms
  refine ⟨buildPure ms rs, buildStatusRows_present ms rs, ?_, ?_⟩
  · intro i m hi
    constructor
    · intro T hT
      rw [build_deref_get, hi]
      exact congrArg (fun x => some (some x)) (finalRow_unique rs _ hT hrs)
    · intro habs
      rw [build_deref_get, hi]
      exact congrArg (fun x => some (some x)) (finalRow_absent rs m.Id habs)
  · intro hnil
    subst hnil
    rw [build_deref]
    rfl

/-- C4 (orphan detection).  The warnings emitted are, in record order, one
message per record whose identifier is not in the catalog, and nothing else;
the message of such a record is the text "Could not find migration file: "
followed by the record's identifier; and no slot of the output carries such an
identifier. -/
theorem buildStatusRows_orphans (ms : List Migration) (rs : List MigrationRecord) :
    ∃ out, buildStatusRows (ms.map some) (rs.map some) = some out ∧
      out.warned =
        (rs.filter (fun r => decide (r.Id ∉ ms.map (fun m => m.Id)))).map
          (fun r => "Could not find migration file: " ++ r.Id) ∧
      (∀ r ∈ rs, r.Id ∉ ms.map (fun m => m.Id) →
        ∀ row : statusRow, some row ∈ out.deref → row.Id ≠ r.Id) := by
  refine ⟨buildPure ms rs, buildStatusRows_present ms rs, ?_, ?_⟩
  · rw [build_warned]
    congr 1
    apply List.filter_congr
    intro r _
    exact lastIdx_isNone ms r.Id
  · intro r _ hr row hrow hid
    rw [build_deref, List.mem_map] at hrow
    obtain ⟨m, hm, hrow⟩ := hrow
    simp only [Option.some.injEq] at hrow
    subst hrow
    rw [finalRow_Id] at hid
    exact hr (List.mem_map.mpr ⟨m, hm, hid⟩)

/-- C5 (orphans do not disturb reconciliation).  The rows returned are the
rows returned for the record list without its orphans, slot by slot (same
addresses, same contents); and every record whose identifier is in the catalog
has its row marked migrated, wherever the record stands among the orphans. -/
theorem buildStatusRows_orphans_ignored (ms : List Migration) (rs : List MigrationRecord) :
    ∃ out out2, buildStatusRows (ms.map some) (rs.map some) = some out ∧
      buildStatusRows (ms.map some)
        ((rs.filter (fun r => decide (r.Id ∈ ms.map (fun m => m.Id)))).map some) = some out2 ∧
      out.result = out2.result ∧ out.deref = out2.deref ∧
      (∀ r ∈ rs, ∀ (i : Nat) (m : Migration), ms[i]? = some m → m.Id = r.Id →
        ∃ row : statusRow, out.deref[i]? = some (some row) ∧ row.Migrated = true) := by
  refine ⟨buildPure ms rs, buildPure ms _, buildStatusRows_present ms rs,
    buildStatusRows_present ms _, ?_, ?_, ?_⟩
  · rw [build_result, build_result]
  · rw [build_deref, build_deref]
    apply List.map_congr_left
    intro m hm
    rw [finalRow_filter]
    intro r _ hr
    exact decide_eq_true (List.mem_map.mpr ⟨m, hm, hr.symm⟩)
  · intro r hr i m hi hid
    refine ⟨finalRow rs m.Id, ?_, ?_⟩
    · rw [build_deref_get, hi]
      rfl
    · rw [hid]
      exact finalRow_migrated rs r hr

/-- C6 (last record wins).  With unique catalog identifiers, when `r` is the
last record of the list carrying its identifier (other records with the same
identifier may precede it), the slot of that identifier holds
`(r.Id, true, r.AppliedAt)`. -/
theorem buildStatusRows_last_wins (ms : List Migration) (pre post : List MigrationRecord)
    (r : MigrationRecord) (hms : (ms.map (fun m => m.Id)).Nodup)
    (hlast : ∀ x ∈ post, x.Id ≠ r.Id) :
    ∃ out, buildStatusRows (ms.map some) ((pre ++ r :: post).map some) = some out ∧
      ∀ (i : Nat) (m : Migration), ms[i]? = some m → m.Id = r.Id →
        out.deref[i]? = some (some { Id := r.Id, Migrated := true, AppliedAt := r.AppliedAt }) := by
  have _ := hms
  refine ⟨buildPure ms _, buildStatusRows_present ms _, ?_⟩
  intro i m hi hid
  rw [build_deref_get, hi, Option.map_some', hid]
  exact congrArg (fun x => some (some x)) (finalRow_last pre post r hlast)

/-- C7 (independence from record order).  Two record lists that are
permutations of each other and hold at most one record per identifier give the
same rows, slot by slot (same addresses, same contents). -/
theorem buildStatusRows_record_order (ms : List Migration) (rs1 rs2 : List MigrationRecord)
    (hperm : rs1.Perm rs2) (hnd : (rs1.map (fun r => r.Id)).Nodup) :
    ∃ out1 out2, buildStatusRows (ms.map some) (rs1.map some) = some out1 ∧
      buildStatusRows (ms.map some) (rs2.map some) = some out2 ∧
      out1.result = out2.result ∧ out1.deref = out2.deref := by
  refine ⟨buildPure ms rs1, buildPure ms rs2, buildStatusRows_present ms rs1,
    buildStatusRows_present ms rs2, ?_, ?_⟩
  · rw [build_result, build_result]
  · rw [build_deref, build_deref]
    apply List.map_congr_left
    intro m _
    rw [finalRow_perm rs1 rs2 m.Id hperm hnd]

/-- C8 (presenters).  On any sequence of rows both presenters return, and the
rows built by `printStatusJSON` and the lines appended by `printStatusTable`
are the images of the input rows, in order: the identifier and either "no" or
the formatted `AppliedAt` (RFC 3339 for JSON, the table layout for the table). -/
theorem presenters_preserve (format : String → Time → String)
    (marshalIndent : List jsonRow → Except String String) (rows : List statusRow) :
    (∃ run, printStatusJSON format marshalIndent (rows.map some) = some run ∧
      run.output = rows.map (fun r =>
        { Migration := r.Id,
          Applied := if r.Migrated then format RFC3339 r.AppliedAt else "no" })) ∧
    (∃ t, printStatusTable format (rows.map some) = some t ∧
      t.lines = rows.map (fun r =>
        [r.Id, if r.Migrated then format tableLayout r.AppliedAt else "no"])) := by
  constructor
  · unfold printStatusJSON
    rw [jsonStep_fold]
    simp only [List.nil_append, Option.some_bind, Option.bind_eq_bind]
    cases marshalIndent _ <;> exact ⟨_, rfl, rfl⟩
  · unfold printStatusTable
    rw [tableStep_fold]
    exact ⟨_, rfl, by simp⟩

/-- C9 (totality).  When no migration and no record is nil the call returns; the
returned slice has one element per migration, and each element is the non-nil
address of an allocated row (the map lookup of the third loop found an entry). -/
theorem buildStatusRows_total (migrations : List (Option Migration))
    (records : List (Option MigrationRecord))
    (hm : ∀ m ∈ migrations, m ≠ none) (hr : ∀ r ∈ records, r ≠ none) :
    ∃ out, buildStatusRows migrations records = some out ∧
      out.result.length = migrations.length ∧
      (∀ p ∈ out.result, ∃ (a : Ptr) (row : statusRow), p = some a ∧ out.heap[a]? = some row) ∧
      (∀ x ∈ out.deref, x ≠ none) := by
  obtain ⟨ms, rfl⟩ := all_present migrations hm
  obtain ⟨rs, rfl⟩ := all_present records hr
  refine ⟨buildPure ms rs, buildStatusRows_present ms rs, ?_, ?_, ?_⟩
  · rw [build_result, List.length_map, List.length_map]
  · intro p hp
    rw [build_result, List.mem_map] at hp
    obtain ⟨m, hmem, rfl⟩ := hp
    obtain ⟨j, hj⟩ := lastIdx_mem ms m hmem
    exact ⟨j, finalRow rs m.Id, hj, build_heap_last ms rs m.Id j hj⟩
  · intro x hx
    rw [build_deref, List.mem_map] at hx
    obtain ⟨m, _, rfl⟩ := hx
    simp

/-- C10 as stated fails: on the catalog `d, a, d` the output holds a row with
identifier `d` at position 0, which is not the last position of `d` (2). -/
theorem buildStatusRows_duplicate_not_only_last :
    ¬ ∃ out, buildStatusRows [some ⟨"d"⟩, some ⟨"a"⟩, some ⟨"d"⟩] [] = some out ∧
      ∀ (i : Nat) (row : statusRow), out.deref[i]? = some (some row) → row.Id = "d" → i = 2 := by
  rintro ⟨out, hout, h⟩
  have hb := buildStatusRows_present [⟨"d"⟩, ⟨"a"⟩, ⟨"d"⟩] []
  simp only [List.map_cons, List.map_nil] at hb
  rw [hb] at hout
  simp only [Option.some.injEq] at hout
  subst hout
  have h0 := h 0 (finalRow [] "d") (by rw [build_deref_get]; rfl) (finalRow_Id _ _)
  omega

/-- C10 (amended).  Let `j` be the position of the last occurrence of `d` in
the catalog.  Every slot of the output at a position where the catalog has `d`
holds the address `j`, the row allocated when that last occurrence was seeded,
so all these slots share one row, and that row carries the identifier `d`;
slots at the other positions do not hold that address. -/
theorem buildStatusRows_duplicate_ids (ms : List Migration) (rs : List MigrationRecord)
    (d : String) (j : Nat) (mj : Migration) (hj : ms[j]? = some mj) (hd : mj.Id = d)
    (hlast : ∀ (j2 : Nat) (m : Migration), j < j2 → ms[j2]? = some m → m.Id ≠ d) :
    ∃ out, buildStatusRows (ms.map some) (rs.map some) = some out ∧
      (∃ row : statusRow, out.heap[j]? = some row ∧ row.Id = d) ∧
      ∀ (i : Nat) (m : Migration), ms[i]? = some m →
        (m.Id = d → out.result[i]? = some (some j) ∧ out.deref[i]? = some (out.heap[j]?)) ∧
        (m.Id ≠ d → out.result[i]? ≠ some (some j)) := by
  have hl := lastIdx_of_last ms d j mj hj hd hlast
  refine ⟨buildPure ms rs, buildStatusRows_present ms rs,
    ⟨finalRow rs d, build_heap_last ms rs d j hl, finalRow_Id rs d⟩, ?_⟩
  intro i m hi
  constructor
  · intro hid
    constructor
    · rw [build_result, List.getElem?_map, hi, Option.map_some', hid, hl]
    · rw [build_deref_get, hi, Option.map_some', hid, build_heap_last ms rs d j hl]
  · intro hid h2
    rw [build_result, List.getElem?_map, hi, Option.map_some'] at h2
    simp only [Option.some.injEq] at h2
    obtain ⟨m2, hm2, hk2⟩ := lastIdx_get ms m.Id j h2
    rw [hj] at hm2
    simp only [Option.some.injEq] at hm2
    subst hm2
    exact hid (hk2.symm.trans hd)

/-! ## Concrete instances -/

/-- C1 on the catalog `a, b, c` with records supplied in another order. -/
theorem buildStatusRows_order_witness :
    ∃ out, buildStatusRows [some ⟨"a"⟩, some ⟨"b"⟩, some ⟨"c"⟩]
        [some ⟨"c", ⟨3, 0, none⟩⟩, some ⟨"a", ⟨1, 0, none⟩⟩] = some out ∧
      out.deref.map (Option.map statusRow.Id) = [some "a", some "b", some "c"] :=
  buildStatusRows_order [⟨"a"⟩, ⟨"b"⟩, ⟨"c"⟩] [⟨"c", ⟨3, 0, none⟩⟩, ⟨"a", ⟨1, 0, none⟩⟩]

/-- C2 on the catalog `a, b`: two slots, and `b` is the identifier of exactly
one of them. -/
theorem buildStatusRows_complete_witness :
    ∃ out, buildStatusRows [some ⟨"a"⟩, some ⟨"b"⟩] [some ⟨"b", ⟨3, 0, none⟩⟩] = some out ∧
      out.result.length = 2 ∧ out.deref.length = 2 ∧
      ∃! i : Nat, ∃ row : statusRow, out.deref[i]? = some (some row) ∧ row.Id = "b" := by
  obtain ⟨out, h1, h2, h3, h4⟩ := buildStatusRows_complete [⟨"a"⟩, ⟨"b"⟩] [⟨"b", ⟨3, 0, none⟩⟩]
  exact ⟨out, h1, h2, h3, h4 (by decide) ⟨"b"⟩ (by decide)⟩

/-- C3 on the catalog `a, b` with the single record `(b, 5)`. -/
theorem buildStatusRows_matching_witness :
    ([⟨"a"⟩, ⟨"b"⟩].map (fun m : Migration => m.Id)).Nodup ∧
    ([⟨"b", ⟨5, 0, none⟩⟩].map (fun r : MigrationRecord => r.Id)).Nodup ∧
    ∃ out, buildStatusRows [some ⟨"a"⟩, some ⟨"b"⟩] [some ⟨"b", ⟨5, 0, none⟩⟩] = some out ∧
      out.deref[0]? = some (some ⟨"a", false, Time.zero⟩) ∧
      out.deref[1]? = some (some ⟨"b", true, ⟨5, 0, none⟩⟩) := by
  obtain ⟨out, h1, h2, _⟩ :=
    buildStatusRows_matching [⟨"a"⟩, ⟨"b"⟩] [⟨"b", ⟨5, 0, none⟩⟩] (by decide) (by decide)
  exact ⟨by decide, by decide, out, h1, (h2 0 ⟨"a"⟩ rfl).2 (by decide),
    (h2 1 ⟨"b"⟩ rfl).1 ⟨5, 0, none⟩ (by decide)⟩

/-- C4 on the scenario of the specification: one orphan record, one warning
naming it, no row for it. -/
theorem buildStatusRows_orphans_witness :
    ∃ out, buildStatusRows [some ⟨"20230101_init"⟩, some ⟨"20230102_addcol"⟩]
        [some ⟨"20230101_init", ⟨10, 0, none⟩⟩, some ⟨"20230199_ghost", ⟨30, 0, none⟩⟩] = some out ∧
      out.warned = ["Could not find migration file: 20230199_ghost"] ∧
      ∀ row : statusRow, some row ∈ out.deref → row.Id ≠ "20230199_ghost" := by
  obtain ⟨out, h1, h2, h3⟩ :=
    buildStatusRows_orphans [⟨"20230101_init"⟩, ⟨"20230102_addcol"⟩]
      [⟨"20230101_init", ⟨10, 0, none⟩⟩, ⟨"20230199_ghost", ⟨30, 0, none⟩⟩]
  exact ⟨out, h1, h2.trans (by decide), h3 ⟨"20230199_ghost", ⟨30, 0, none⟩⟩ (by decide) (by decide)⟩

/-- C5 on a record list whose orphan comes first: the record that follows it
is still applied. -/
theorem buildStatusRows_orphans_ignored_witness :
    ∃ out out2, buildStatusRows [some ⟨"a"⟩, some ⟨"b"⟩]
        [some ⟨"x", ⟨1, 0, none⟩⟩, some ⟨"b", ⟨2, 0, none⟩⟩] = some out ∧
      buildStatusRows [some ⟨"a"⟩, some ⟨"b"⟩] [some ⟨"b", ⟨2, 0, none⟩⟩] = some out2 ∧
      out.deref = out2.deref ∧
      ∃ row : statusRow, out.deref[1]? = some (some row) ∧ row.Migrated = true := by
  obtain ⟨out, out2, h1, h2, _, h4, h5⟩ :=
    buildStatusRows_orphans_ignored [⟨"a"⟩, ⟨"b"⟩] [⟨"x", ⟨1, 0, none⟩⟩, ⟨"b", ⟨2, 0, none⟩⟩]
  exact ⟨out, out2, h1, h2, h4, h5 ⟨"b", ⟨2, 0, none⟩⟩ (by decide) 1 ⟨"b"⟩ rfl rfl⟩

/-- C6 on two records for `b`: the second one's timestamp is kept. -/
theorem buildStatusRows_last_wins_witness :
    ([⟨"a"⟩, ⟨"b"⟩].map (fun m : Migration => m.Id)).Nodup ∧
    ∃ out, buildStatusRows [some ⟨"a"⟩, some ⟨"b"⟩]
        [some ⟨"b", ⟨5, 0, none⟩⟩, some ⟨"b", ⟨7, 0, none⟩⟩, some ⟨"a", ⟨1, 0, none⟩⟩] = some out ∧
      out.deref[1]? = some (some ⟨"b", true, ⟨7, 0, none⟩⟩) := by
  obtain ⟨out, h1, h2⟩ :=
    buildStatusRows_last_wins [⟨"a"⟩, ⟨"b"⟩] [⟨"b", ⟨5, 0, none⟩⟩] [⟨"a", ⟨1, 0, none⟩⟩] ⟨"b", ⟨7, 0, none⟩⟩
      (by decide) (by decide)
  exact ⟨by decide, out, h1, h2 1 ⟨"b"⟩ rfl rfl⟩

/-- C7 on two records supplied in both orders. -/
theorem buildStatusRows_record_order_witness :
    ([⟨"a", ⟨1, 0, none⟩⟩, ⟨"b", ⟨2, 0, none⟩⟩] : List MigrationRecord).Perm
      [⟨"b", ⟨2, 0, none⟩⟩, ⟨"a", ⟨1, 0, none⟩⟩] ∧
    ∃ out1 out2, buildStatusRows [some ⟨"a"⟩, some ⟨"b"⟩]
        [some ⟨"a", ⟨1, 0, none⟩⟩, some ⟨"b", ⟨2, 0, none⟩⟩] = some out1 ∧
      buildStatusRows [some ⟨"a"⟩, some ⟨"b"⟩]
        [some ⟨"b", ⟨2, 0, none⟩⟩, some ⟨"a", ⟨1, 0, none⟩⟩] = some out2 ∧
      out1.result = out2.result ∧ out1.deref = out2.deref :=
  ⟨List.Perm.swap _ _ _,
    buildStatusRows_record_order [⟨"a"⟩, ⟨"b"⟩] [⟨"a", ⟨1, 0, none⟩⟩, ⟨"b", ⟨2, 0, none⟩⟩]
      [⟨"b", ⟨2, 0, none⟩⟩, ⟨"a", ⟨1, 0, none⟩⟩] (List.Perm.swap _ _ _) (by decide)⟩

/-- C8 on two migrated rows with the same instant in different locations and
one pending row, with a formatter that appends the name of the location to the
layout it is given: the two migrated rows get different texts. -/
theorem presenters_preserve_witness :
    (∃ run, printStatusJSON (fun layout t => layout ++ (t.loc.map Location.name).getD " UTC")
        (fun _ => .ok "")
        [some ⟨"a", true, ⟨1, 0, none⟩⟩,
          some ⟨"b", true, ⟨1, 0, some ⟨" CET", [⟨"CET", 3600, false⟩], [], ""⟩⟩⟩,
          some ⟨"c", false, Time.zero⟩] = some run ∧
      run.output = [⟨"a", "2006-01-02T15:04:05Z07:00 UTC"⟩,
        ⟨"b", "2006-01-02T15:04:05Z07:00 CET"⟩, ⟨"c", "no"⟩]) ∧
    (∃ t, printStatusTable (fun layout t => layout ++ (t.loc.map Location.name).getD " UTC")
        [some ⟨"a", true, ⟨1, 0, none⟩⟩,
          some ⟨"b", true, ⟨1, 0, some ⟨" CET", [⟨"CET", 3600, false⟩], [], ""⟩⟩⟩,
          some ⟨"c", false, Time.zero⟩] = some t ∧
      t.lines = [["a", "2006-01-02 15:04:05 UTC"], ["b", "2006-01-02 15:04:05 CET"],
        ["c", "no"]]) := by
  obtain ⟨⟨run, h1, h2⟩, ⟨t, h3, h4⟩⟩ :=
    presenters_preserve (fun layout t => layout ++ (t.loc.map Location.name).getD " UTC")
      (fun _ => .ok "")
      [⟨"a", true, ⟨1, 0, none⟩⟩,
        ⟨"b", true, ⟨1, 0, some ⟨" CET", [⟨"CET", 3600, false⟩], [], ""⟩⟩⟩,
        ⟨"c", false, Time.zero⟩]
  exact ⟨⟨run, h1, h2.trans (by decide)⟩, ⟨t, h3, h4.trans (by decide)⟩⟩

/-- C9 on a catalog and a record list without nil elements. -/
theorem buildStatusRows_total_witness :
    (∀ m ∈ [some (⟨"a"⟩ : Migration), some ⟨"b"⟩], m ≠ none) ∧
    (∀ r ∈ [some (⟨"a", ⟨1, 0, none⟩⟩ : MigrationRecord), some ⟨"x", ⟨2, 0, none⟩⟩], r ≠ none) ∧
    ∃ out, buildStatusRows [some ⟨"a"⟩, some ⟨"b"⟩]
        [some ⟨"a", ⟨1, 0, none⟩⟩, some ⟨"x", ⟨2, 0, none⟩⟩] = some out ∧
      out.result.length = 2 ∧
      (∀ p ∈ out.result, ∃ (a : Ptr) (row : statusRow), p = some a ∧ out.heap[a]? = some row) ∧
      (∀ x ∈ out.deref, x ≠ none) :=
  ⟨by decide, by decide,
    buildStatusRows_total [some ⟨"a"⟩, some ⟨"b"⟩] [some ⟨"a", ⟨1, 0, none⟩⟩, some ⟨"x", ⟨2, 0, none⟩⟩]
      (by decide) (by decide)⟩

/-- C10 (amended) on the catalog `d, a, d`: both slots of `d` hold the address
2, the slot of `a` does not. -/
theorem buildStatusRows_duplicate_ids_witness :
    ∃ out, buildStatusRows [some ⟨"d"⟩, some ⟨"a"⟩, some ⟨"d"⟩] [some ⟨"d", ⟨5, 0, none⟩⟩] = some out ∧
      (∃ row : statusRow, out.heap[2]? = some row ∧ row.Id = "d") ∧
      out.result[0]? = some (some 2) ∧ out.result[2]? = some (some 2) ∧
      out.result[1]? ≠ some (some 2) ∧ out.deref[0]? = some (out.heap[2]?) := by
  obtain ⟨out, h1, h2, h3⟩ :=
    buildStatusRows_duplicate_ids [⟨"d"⟩, ⟨"a"⟩, ⟨"d"⟩] [⟨"d", ⟨5, 0, none⟩⟩] "d" 2 ⟨"d"⟩ rfl rfl
      (by
        intro j2 m hlt hm
        rw [List.getElem?_eq_none (by simpa using hlt)] at hm
        cases hm)
  exact ⟨out, h1, h2, ((h3 0 ⟨"d"⟩ rfl).1 rfl).1, ((h3 2 ⟨"d"⟩ rfl).1 rfl).1,
    (h3 1 ⟨"a"⟩ rfl).2 (by decide), ((h3 0 ⟨"d"⟩ rfl).1 rfl).2⟩

end SqlMigrate
